import Mathlib

/-!
Verification of the audio recording module of `dpc-messenger`
(`src/dpc-client/ui/src-tauri/src/audio_recorder.rs`).

The module records microphone audio to a 16-bit PCM WAV file at 48 kHz mono.
We shallowly embed its pure core:

* the frame encoder loop (`encoder_thread`), which buffers incoming samples,
  writes whole 960-sample frames up to a `max_frames` cap and zero-pads a
  final flush frame on stop/disconnect;
* the WAV container writer (`WavWriter`), modelled at the byte level with
  `u32` fields kept modulo `2^32` (release-mode wrapping arithmetic);
* the streaming linear-interpolation resampler of `start_audio_capture`
  (its `f64` source index is modelled with exact arithmetic; statements
  about its behaviour are made only for device rates at which every `f64`
  value reached by the loop is exactly representable, so that the exact
  model is bit-identical to the floating-point program);
* the capture callback's channel mixdown (its `f32` accumulation of 16-bit
  integer values is exact for realistic channel counts, so it is modelled
  with exact arithmetic as well);
* the session-state transitions of `start_recording`, `stop_recording` and
  `get_recording_status`, with the external environment (device presence,
  stream construction, filesystem results) passed in explicitly.

Loops are embedded as fuel-based structural recursions; each fuel argument
is instantiated with a provably sufficient bound so that running out of fuel
coincides with the loop's own exit condition.
-/

namespace DpcAudio

set_option maxRecDepth 40000

/-- Constant `TELEGRAM_SAMPLE_RATE` from the source: 48 kHz. -/
def TELEGRAM_SAMPLE_RATE : Nat := 48000

/-- Constant `FRAME_SIZE_SAMPLES` from the source:
`(48000 * 20) / 1000 = 960` samples per 20 ms frame. -/
def FRAME_SIZE_SAMPLES : Nat := (TELEGRAM_SAMPLE_RATE * 20) / 1000

/-- Messages sent from the capture pipeline to the encoder thread
(`enum AudioSample`). -/
inductive AudioSample where
  | Data (samples : List Int)
  | Stop
deriving DecidableEq

/-- State of the inner frame-draining loop of `encoder_thread`:
the pending sample buffer, the samples written to the file so far,
the frame counter, and whether the loop returned early because the
`max_frames` cap was reached. -/
structure EncSt where
  buf : List Int
  out : List Int
  frames : Nat
  capped : Bool
deriving DecidableEq

/-- The inner `while sample_buffer.len() >= FRAME_SIZE_SAMPLES` loop of
`encoder_thread`, with explicit fuel.  Each iteration drains 960 samples,
so any fuel of at least `buf.length` is sufficient: running out of fuel can
only happen once `buf.length < FRAME_SIZE_SAMPLES`, where the loop would
exit anyway (see `drainFramesF_buf_small`). -/
def drainFramesF (maxFrames : Nat) : Nat → List Int → List Int → Nat → EncSt
  | 0, buf, out, frames => ⟨buf, out, frames, false⟩
  | fuel + 1, buf, out, frames =>
    if FRAME_SIZE_SAMPLES ≤ buf.length then
      if maxFrames ≤ frames then ⟨buf, out, frames, true⟩
      else drainFramesF maxFrames fuel (buf.drop FRAME_SIZE_SAMPLES)
        (out ++ buf.take FRAME_SIZE_SAMPLES) (frames + 1)
    else ⟨buf, out, frames, false⟩

/-- The frame-draining loop, run with sufficient fuel. -/
def drainFrames (maxFrames : Nat) (buf out : List Int) (frames : Nat) : EncSt :=
  drainFramesF maxFrames buf.length buf out frames

/-- Final flush of `encoder_thread`: if the residual buffer is nonempty it is
zero-padded to a full frame and written. -/
def flushBuf (buf out : List Int) : List Int :=
  if buf.isEmpty then out
  else out ++ (buf ++ List.replicate (FRAME_SIZE_SAMPLES - buf.length) 0)

/-- Result of an encoder run: the data samples written to the (finalized)
file, and whether the thread returned through the `max_frames` cap path. -/
structure EncOut where
  out : List Int
  viaCap : Bool
deriving DecidableEq

/-- The receive loop of `encoder_thread` over a finite message sequence.
Reaching the end of the list models channel disconnection
(`RecvTimeoutError::Disconnected`), which like `Stop` breaks the loop and
flushes; `Timeout` iterations change nothing and are omitted.  On the cap
path the writer is finalized and the thread returns without flushing. -/
def encoderLoop (maxFrames : Nat) :
    List AudioSample → List Int → List Int → Nat → EncOut
  | [], buf, out, _ => ⟨flushBuf buf out, false⟩
  | AudioSample.Stop :: _, buf, out, _ => ⟨flushBuf buf out, false⟩
  | AudioSample.Data xs :: rest, buf, out, frames =>
    let s := drainFrames maxFrames (buf ++ xs) out frames
    if s.capped then ⟨s.out, true⟩
    else encoderLoop maxFrames rest s.buf s.out s.frames

/-- One full run of `encoder_thread` from its initial state. -/
def encoderRun (msgs : List AudioSample) (maxFrames : Nat) : EncOut :=
  encoderLoop maxFrames msgs [] [] 0

/-- The `max_frames` computation of `start_recording`:
`(sample_rate as usize * max_duration_seconds as usize) / FRAME_SIZE_SAMPLES`. -/
def maxFramesFor (D : Nat) : Nat :=
  (TELEGRAM_SAMPLE_RATE * D) / FRAME_SIZE_SAMPLES

/-! ### WAV container writer

`WavWriter` is modelled at the byte level: the file is a list of byte
values and `data_size` is the `u32` accumulator, kept modulo `2^32` as in
release-mode Rust wrapping arithmetic. -/

/-- Little-endian encoding of a 16-bit field (`write_u16::<LittleEndian>`). -/
def u16le (v : Nat) : List Nat := [v % 256, v / 256 % 256]

/-- Little-endian encoding of a 32-bit field (`write_u32::<LittleEndian>`). -/
def u32le (v : Nat) : List Nat :=
  [v % 256, v / 2 ^ 8 % 256, v / 2 ^ 16 % 256, v / 2 ^ 24 % 256]

/-- Little-endian two's-complement encoding of one signed 16-bit sample
(`write_i16::<LittleEndian>`). -/
def i16le (s : Int) : List Nat := u16le (s.emod 65536).toNat

/-- Byte-level state of `WavWriter`: the file contents so far and the
`data_size` accumulator. -/
structure WavWriter where
  bytes : List Nat
  dataSize : Nat
deriving DecidableEq

/-- The 44-byte header written by `WavWriter::new`: RIFF tag, file-size
placeholder 0, WAVE tag, fmt chunk (PCM tag 1, channels, sample rate, byte
rate, block align, 16 bits per sample), data tag, data-size placeholder 0. -/
def wavHeader (sample_rate channels : Nat) : List Nat :=
  [0x52, 0x49, 0x46, 0x46] ++ u32le 0 ++ [0x57, 0x41, 0x56, 0x45] ++
  [0x66, 0x6d, 0x74, 0x20] ++ u32le 16 ++ u16le 1 ++ u16le channels ++
  u32le sample_rate ++ u32le (sample_rate * channels * 2 % 2 ^ 32) ++
  u16le (channels * 2 % 2 ^ 16) ++ u16le 16 ++
  [0x64, 0x61, 0x74, 0x61] ++ u32le 0

/-- `WavWriter::new`. -/
def WavWriter.new (sample_rate channels : Nat) : WavWriter :=
  ⟨wavHeader sample_rate channels, 0⟩

/-- `WavWriter::write_samples`: append each sample little-endian and add
`samples.len() * 2` to the `u32` accumulator. -/
def WavWriter.write_samples (w : WavWriter) (xs : List Int) : WavWriter :=
  ⟨w.bytes ++ (xs.map i16le).flatten, (w.dataSize + xs.length * 2) % 2 ^ 32⟩

/-- Overwrite bytes at a given offset in place (models `seek` + write). -/
def patchBytes (bs : List Nat) (off : Nat) (patch : List Nat) : List Nat :=
  bs.take off ++ patch ++ bs.drop (off + patch.length)

/-- `WavWriter::finish`: patch the data-size field at byte offset 40 and the
RIFF-size field (`data_size + 36`) at byte offset 4. -/
def WavWriter.finish (w : WavWriter) : List Nat :=
  patchBytes (patchBytes w.bytes 40 (u32le w.dataSize)) 4
    (u32le ((w.dataSize + 36) % 2 ^ 32))

/-- Decode the little-endian 32-bit field at a byte offset. -/
def readU32 (bs : List Nat) (off : Nat) : Nat :=
  bs.getD off 0 + 2 ^ 8 * bs.getD (off + 1) 0 +
  2 ^ 16 * bs.getD (off + 2) 0 + 2 ^ 24 * bs.getD (off + 3) 0

/-- Write a sequence of frames through the writer. -/
def writeFrames (w : WavWriter) (frames : List (List Int)) : WavWriter :=
  frames.foldl WavWriter.write_samples w

/-! ### Streaming resampler (worker thread of `start_audio_capture`)

The worker keeps a mono input buffer at the device rate, a running
fractional source index `src_idx`, and an output buffer at 48 kHz.  In the
source `src_idx : f64` is advanced by `resample_ratio.recip() =
device_rate / 48000` per output sample and decremented by `1.0` per
consumed input sample, so (under exact arithmetic) every value it takes is
an integer multiple of `1 / 48000`; we represent it exactly by its
numerator `src` over the fixed denominator 48000, i.e. `src_idx = src /
48000` and one step adds the device rate `R` to `src`.

Faithfulness domain: when the step `R / 48000` is a dyadic rational — that
is, `R * 2 ^ k = 48000` for some `k` (necessarily `k ≤ 7`, giving
`R ∈ {48000, 24000, 12000, 6000, 3000, 1500, 750, 375}`) — the `f64`
program computes exactly what this model computes, bit for bit:
`48000.0 / R`, its reciprocal `1 / 2 ^ k`, every index value (a multiple of
`1 / 2 ^ k` below 2), every addition and the `-= 1.0` are exactly
representable in binary64, `fract * 1024.0` is an exact integer, and the
truncating casts agree with the model's floor divisions.  For other rates
the rounded step `fl(R / 48000)` can make the real loop cross integer
boundaries one iteration later than exact arithmetic (at `R = 8000`,
`fl(1/6) * 6 < 1`), shifting emitted counts; the theorems below therefore
assert counts only for the dyadic rates (and the ratio-1 identity claim,
where the arithmetic is trivially exact). -/

/-- Truncating `as i16` cast from a wider integer (two's complement). -/
def wrapI16 (s : Int) : Int := (s + 32768) % 65536 - 32768

/-- One iteration of the resampling `while` loop, for device rate `R`.
With `src_idx = src / 48000`: `src_idx += ratio.recip()` is `src + R`;
`idx0 = src_idx.floor() as usize` is `src / 48000`;
`(src_idx.fract() * 1024.0) as i64` is `src % 48000 * 1024 / 48000`;
`src_idx -= 1.0` is `src - 48000`.  The sample is emitted only when
`idx0` is in bounds, and one input sample is dropped when `idx0 ≥ 1`. -/
def rsIter (R : Nat) (inBuf outBuf : List Int) (src : Nat) :
    List Int × List Int × Nat :=
  let src1 := src + R
  let idx0 : Nat := src1 / TELEGRAM_SAMPLE_RATE
  let idx1 : Nat := min (idx0 + 1) (inBuf.length - 1)
  let frac : Int := (src1 % TELEGRAM_SAMPLE_RATE * 1024 / TELEGRAM_SAMPLE_RATE : Nat)
  let outBuf1 :=
    if idx0 < inBuf.length then
      outBuf ++ [wrapI16 (((inBuf.getD idx0 0) * (1024 - frac) +
        (inBuf.getD idx1 0) * frac).tdiv 1024)]
    else outBuf
  if 1 ≤ idx0 then (inBuf.drop 1, outBuf1, src1 - TELEGRAM_SAMPLE_RATE)
  else (inBuf, outBuf1, src1)

/-- The `while input_buffer.len() >= 2 && output_buffer.len() < 1920` loop,
with explicit fuel.  Every iteration either pushes an output sample (when
`idx0 < len`, which shrinks the `1920 - output` headroom) or, failing that,
has `idx0 ≥ 1` (since `idx0 ≥ len ≥ 2`) and drops an input sample; so
`inBuf.length + 2 * FRAME_SIZE_SAMPLES` fuel is always sufficient. -/
def resampleLoopF (R : Nat) :
    Nat → List Int → List Int → Nat → List Int × List Int × Nat
  | 0, inBuf, outBuf, src => (inBuf, outBuf, src)
  | fuel + 1, inBuf, outBuf, src =>
    if 2 ≤ inBuf.length ∧ outBuf.length < FRAME_SIZE_SAMPLES * 2 then
      let t := rsIter R inBuf outBuf src
      resampleLoopF R fuel t.1 t.2.1 t.2.2
    else (inBuf, outBuf, src)

/-- The resampling loop, run with sufficient fuel. -/
def resampleLoop (R : Nat) (inBuf outBuf : List Int) (src : Nat) :
    List Int × List Int × Nat :=
  resampleLoopF R (inBuf.length + FRAME_SIZE_SAMPLES * 2) inBuf outBuf src

/-- The `while output_buffer.len() >= FRAME_SIZE_SAMPLES` forwarding loop:
complete frames are moved from the output buffer to the encoder channel
(`sent` is the flattened sequence of forwarded frames).  Each iteration
removes 960 samples, so fuel `out.length` is sufficient. -/
def forwardF : Nat → List Int → List Int → List Int × List Int
  | 0, sent, out => (sent, out)
  | fuel + 1, sent, out =>
    if FRAME_SIZE_SAMPLES ≤ out.length then
      forwardF fuel (sent ++ out.take FRAME_SIZE_SAMPLES)
        (out.drop FRAME_SIZE_SAMPLES)
    else (sent, out)

/-- The forwarding loop, run with sufficient fuel. -/
def forwardFrames (sent out : List Int) : List Int × List Int :=
  forwardF out.length sent out

/-- State of the resampler worker between received messages (`srcIdx` is
the numerator of `src_idx` over the fixed denominator 48000). -/
structure RsSt where
  inBuf : List Int
  outBuf : List Int
  srcIdx : Nat
  sent : List Int
deriving DecidableEq

/-- Processing of one received mono block: append it to the input buffer,
run the resampling loop, then forward complete frames. -/
def rsStep (R : Nat) (st : RsSt) (xs : List Int) : RsSt :=
  let r := resampleLoop R (st.inBuf ++ xs) st.outBuf st.srcIdx
  let f := forwardFrames st.sent r.2.1
  ⟨r.1, f.2, r.2.2, f.1⟩

/-- A run of the resampler worker over a finite sequence of mono blocks,
from its initial state (empty buffers, `src_idx = 0`). -/
def rsRun (R : Nat) (msgs : List (List Int)) : RsSt :=
  msgs.foldl (rsStep R) ⟨[], [], 0, []⟩

/-- All output samples the worker has produced: forwarded frames followed by
the residual output buffer. -/
def RsSt.emitted (st : RsSt) : List Int := st.sent ++ st.outBuf

/-! ### Capture callback mixdown (`data_callback` of `start_audio_capture`)

The callback walks the interleaved block in channel-sized chunks, converts
each sample to `i16` (a float sample is clamped to `[-1, 1]` and scaled by
`32767`), sums the chunk in an `f32` accumulator and divides by the channel
count.  The `f32` accumulation of 16-bit integer values and the division
are exact up to the final truncating cast for any realistic channel count
(the sum stays below `2 ^ 24` and integer quotients at this magnitude are
more than half an ulp away from the nearest representable), so both are
modelled here with exact rational arithmetic. -/

/-- Truncation of a rational toward zero (Rust float-to-int `as` cast for
in-range values). -/
def truncQ (q : ℚ) : Int := if 0 ≤ q then ⌊q⌋ else ⌈q⌉

/-- Clamp to `[-1, 1]` (`f32::clamp(-1.0, 1.0)`). -/
def clampQ (x : ℚ) : ℚ := min 1 (max (-1) x)

/-- One raw device sample: either a native signed 16-bit integer sample or a
32-bit float sample (modelled as a rational). -/
inductive RawSample where
  | i16 (v : Int)
  | f32 (v : ℚ)
deriving DecidableEq

/-- Per-sample conversion to signed 16-bit: the integer branch passes the
value through, the float branch clamps to `[-1, 1]` and scales by `32767`
with a truncating cast. -/
def toI16 : RawSample → Int
  | RawSample.i16 v => v
  | RawSample.f32 v => truncQ (clampQ v * 32767)

/-- One mono output sample of the callback: sum of the converted chunk
divided by the channel count, truncated (`(sum / input_channels as f32) as
i16` — exact, so the truncated `f32` quotient is `Int.tdiv`).  Note the
divisor is the configured channel count, not the chunk length. -/
def monoSample (channels : Nat) (chunk : List RawSample) : Int :=
  ((chunk.map toI16).sum).tdiv channels

/-- Chunking of the interleaved block (`data.chunks(input_channels)`), with
explicit fuel; each step removes `channels ≥ 1` elements, so fuel
`data.length` is sufficient.  The trailing chunk may be shorter. -/
def listChunksF : Nat → Nat → List RawSample → List (List RawSample)
  | 0, _, _ => []
  | _, _, [] => []
  | fuel + 1, channels, xs =>
    xs.take channels :: listChunksF fuel channels (xs.drop channels)

/-- `data.chunks(channels)`, with sufficient fuel. -/
def listChunks (channels : Nat) (xs : List RawSample) : List (List RawSample) :=
  listChunksF xs.length channels xs

/-- The full callback body: one mono sample per channel-aligned group. -/
def captureCallback (channels : Nat) (data : List RawSample) : List Int :=
  (listChunks channels data).map (monoSample channels)

/-- Modelled from the spec: the arithmetic mean of a group's converted
per-channel values, truncated toward zero — the value the spec says each
mono output sample equals. -/
def specGroupMean (group : List RawSample) : Int :=
  ((group.map toI16).sum).tdiv group.length

/-! ### Session controller state

`RecordingState` mirrors the `struct RecordingState` behind the global
mutex; `sample_tx : Bool` records presence of the channel sender.  The
external world consumed by `start_recording` (device lookup, stream
construction, directory creation, the timestamp) is passed in as an
explicit environment; the lock itself is modelled as uncontended and
unpoisoned except where a claim is specifically about poisoning. -/

/-- The sample format reported by the device (`cpal::SampleFormat`):
the two supported cases and the catch-all `_` branch. -/
inductive SampleFormat where
  | I16
  | F32
  | Other
deriving DecidableEq

/-- `struct RecordingState`. -/
structure RecordingState where
  is_recording : Bool
  output_path : Option String
  sample_rate : Option Nat
  channels : Option Nat
  sample_tx : Bool
deriving DecidableEq

/-- `RecordingState::new`. -/
def RecordingState.new : RecordingState := ⟨false, none, none, none, false⟩

/-- `struct RecordingStartResult`. -/
structure RecordingStartResult where
  output_path : String
  sample_rate : Nat
  channels : Nat
deriving DecidableEq

/-- `struct RecordingStatus`. -/
structure RecordingStatus where
  is_recording : Bool
  output_path : Option String
deriving DecidableEq

/-- Outcomes of the external operations performed by `start_recording`. -/
structure StartEnv where
  hasInputDevice : Bool
  defaultConfigOk : Bool
  sampleFormat : SampleFormat
  createDirOk : Bool
  buildStreamOk : Bool
  playStreamOk : Bool
  timestamp : Nat
deriving DecidableEq

/-- The stream-construction tail of `start_audio_capture` as seen by
`start_recording`: builds the input stream and plays it, failing with the
corresponding error string. -/
def start_audio_capture (env : StartEnv) : Except String Unit :=
  if ¬env.buildStreamOk then Except.error "Failed to build input stream"
  else if ¬env.playStreamOk then Except.error "Failed to play stream"
  else Except.ok ()

/-- `start_recording`, step for step: the `is_recording` precondition check,
device and config lookup, directory creation, filename generation, format
dispatch into `start_audio_capture`, and — only after the stream is
running — the commit of the new session state.  Every failure returns the
state unchanged. -/
def start_recording (env : StartEnv) (output_dir : String)
    (st : RecordingState) :
    RecordingState × Except String RecordingStartResult :=
  if st.is_recording then (st, Except.error "Already recording")
  else if ¬env.hasInputDevice then
    (st, Except.error "No audio input device found")
  else if ¬env.defaultConfigOk then
    (st, Except.error "Failed to get default input config")
  else if ¬env.createDirOk then
    (st, Except.error "Failed to create output directory")
  else
    let file_path := output_dir ++ "/voice_" ++ toString env.timestamp ++ ".wav"
    match env.sampleFormat with
    | SampleFormat.Other => (st, Except.error "Unsupported sample format")
    | _ =>
      match start_audio_capture env with
      | Except.error e => (st, Except.error e)
      | Except.ok _ =>
        (⟨true, some file_path, some TELEGRAM_SAMPLE_RATE, some 1, true⟩,
         Except.ok ⟨file_path, TELEGRAM_SAMPLE_RATE, 1⟩)

/-- `stop_recording`: the `is_recording` precondition check, the flip of
`is_recording`, the `Stop` send, the clearing of the sender, and the
post-stop file checks (existence and minimum size), whose outcomes are
passed in explicitly. -/
def stop_recording (fileExists : Bool) (fileSize : Nat)
    (st : RecordingState) : RecordingState × Except String String :=
  if ¬st.is_recording then (st, Except.error "Not recording")
  else
    match st.output_path with
    | none =>
      ({ st with is_recording := false }, Except.error "No recording in progress")
    | some p =>
      let st1 : RecordingState := { st with is_recording := false, sample_tx := false }
      if ¬fileExists then (st1, Except.error ("Output file not found: " ++ p))
      else if fileSize < 100 then
        (st1, Except.error ("Output file is too small: " ++ p))
      else (st1, Except.ok p)

/-- `get_recording_status`: `state.lock().unwrap()` followed by a pure read.
On a poisoned lock the `unwrap` panics, modelled as `none`; otherwise the
snapshot is returned and the state is untouched. -/
def get_recording_status (poisoned : Bool) (st : RecordingState) :
    Option RecordingStatus :=
  if poisoned then none else some ⟨st.is_recording, st.output_path⟩

/-- `encoder_thread` receives only the channel receiver, the output path,
the rates and `max_frames`; it holds no reference to the shared
`RecordingState`, so the shared state after the thread exits — on any of
its paths, including the `max_frames` cap — is whatever it was before. -/
def encoderStateAfter (st : RecordingState) (_msgs : List AudioSample)
    (_maxFrames : Nat) : RecordingState := st

/-! ### Encoder lemmas -/

theorem frame_size_eq : FRAME_SIZE_SAMPLES = 960 := rfl

/-- Invariant of the frame-draining loop: the output always holds exactly
`frames` whole frames, the frame counter never exceeds `max_frames`, a
capped exit happens exactly at `max_frames`, and a normal exit leaves less
than one frame in the buffer (given sufficient fuel). -/
theorem drainFramesF_inv (mf : Nat) :
    ∀ (fuel : Nat) (buf out : List Int) (fr : Nat),
      out.length = fr * 960 → fr ≤ mf → buf.length ≤ fuel + 959 →
      (drainFramesF mf fuel buf out fr).out.length
          = (drainFramesF mf fuel buf out fr).frames * 960
      ∧ (drainFramesF mf fuel buf out fr).frames ≤ mf
      ∧ ((drainFramesF mf fuel buf out fr).capped = true
          → (drainFramesF mf fuel buf out fr).frames = mf)
      ∧ ((drainFramesF mf fuel buf out fr).capped = false
          → (drainFramesF mf fuel buf out fr).buf.length ≤ 959) := by
  intro fuel
  induction fuel with
  | zero =>
    intro buf out fr h1 h2 h3
    simp only [drainFramesF]
    refine ⟨h1, h2, by simp, fun _ => ?_⟩
    show buf.length ≤ 959
    omega
  | succ fuel ih =>
    intro buf out fr h1 h2 h3
    rw [drainFramesF]
    split
    · rename_i hlen
      rw [frame_size_eq] at hlen
      split
      · rename_i hcap
        refine ⟨h1, h2, fun _ => ?_, by simp⟩
        show fr = mf
        omega
      · rename_i hcap
        apply ih
        · simp only [frame_size_eq, List.length_append, List.length_take]
          omega
        · omega
        · simp only [frame_size_eq, List.length_drop]
          omega
    · rename_i hlen
      rw [frame_size_eq] at hlen
      refine ⟨h1, h2, by simp, fun _ => ?_⟩
      show buf.length ≤ 959
      omega

/-- The final flush adds at most one frame's worth of samples. -/
theorem flushBuf_length (buf out : List Int) (h : buf.length ≤ 960) :
    (flushBuf buf out).length ≤ out.length + 960 := by
  unfold flushBuf
  split
  · omega
  · simp only [frame_size_eq, List.length_append, List.length_replicate]
    omega

/-- The receive loop writes at most `max_frames` whole frames plus one
flush frame, and a cap exit contains exactly `max_frames` frames. -/
theorem encoderLoop_bound (mf : Nat) :
    ∀ (msgs : List AudioSample) (buf out : List Int) (fr : Nat),
      out.length = fr * 960 → fr ≤ mf → buf.length ≤ 960 →
      (encoderLoop mf msgs buf out fr).out.length ≤ mf * 960 + 960
      ∧ ((encoderLoop mf msgs buf out fr).viaCap = true
          → (encoderLoop mf msgs buf out fr).out.length = mf * 960) := by
  intro msgs
  induction msgs with
  | nil =>
    intro buf out fr h1 h2 h3
    refine ⟨?_, by intro h; simp only [encoderLoop] at h; exact absurd h (by simp)⟩
    show (flushBuf buf out).length ≤ mf * 960 + 960
    have := flushBuf_length buf out h3
    omega
  | cons m rest ih =>
    intro buf out fr h1 h2 h3
    cases m with
    | Stop =>
      refine ⟨?_, by intro h; simp only [encoderLoop] at h; exact absurd h (by simp)⟩
      show (flushBuf buf out).length ≤ mf * 960 + 960
      have := flushBuf_length buf out h3
      omega
    | Data xs =>
      simp only [encoderLoop]
      have hinv := drainFramesF_inv mf (buf ++ xs).length (buf ++ xs) out fr h1 h2
        (by omega)
      simp only [drainFrames] at *
      split
      · rename_i hc
        refine ⟨?_, fun _ => ?_⟩
        · show (drainFramesF mf (buf ++ xs).length (buf ++ xs) out fr).out.length
            ≤ mf * 960 + 960
          omega
        · show (drainFramesF mf (buf ++ xs).length (buf ++ xs) out fr).out.length
            = mf * 960
          have := hinv.2.2.1 hc
          omega
      · rename_i hc
        apply ih
        · exact hinv.1
        · exact hinv.2.1
        · have := hinv.2.2.2 (by simpa using hc)
          omega

/-- C1, counterexample.  With `max_duration_seconds = 0` the derived cap is
`max_frames = 0`, so the claimed bound is `⌈0 * 48000 / 960⌉ * 960 = 0`
data samples; yet feeding one short `Data` message and letting the channel
close makes the flush path zero-pad the residue to a whole frame, so the
finalized file holds 960 samples.  The claim that every termination path,
including the zero-padded flush frame, respects the
`⌈D * 48000 / 960⌉ * 960` bound is therefore false. -/
theorem claim_C1_counterexample :
    ¬ ((encoderRun [AudioSample.Data [1]] (maxFramesFor 0)).out.length
        ≤ (0 * 48000 + 960 - 1) / 960 * 960) := by
  decide

/-- C1, amended.  For every message sequence and every duration `D`, the
finalized file holds at most `⌈D * 48000 / 960⌉ * 960` samples plus one
additional (zero-padded) flush frame: the `Data`-processing paths respect
the `max_frames` cap exactly, and only the flush frame written on the
stop/disconnect path can exceed it, by at most 960 samples. -/
theorem claim_C1 (msgs : List AudioSample) (D : Nat) :
    (encoderRun msgs (maxFramesFor D)).out.length
      ≤ (D * 48000 + 960 - 1) / 960 * 960 + 960 := by
  have hmf : maxFramesFor D = (D * 48000 + 960 - 1) / 960 := by
    show 48000 * D / 960 = (D * 48000 + 960 - 1) / 960
    omega
  have := (encoderLoop_bound (maxFramesFor D) msgs [] [] 0 (by simp) (by simp)
    (by simp)).1
  show (encoderLoop (maxFramesFor D) msgs [] [] 0).out.length
    ≤ (D * 48000 + 960 - 1) / 960 * 960 + 960
  omega

/-- C9, counterexample.  Take a committed session state (as `start()`
leaves it) and an encoder run that reaches the `max_frames` cap: the
encoder exits through the cap path, but nothing in the code ever writes the
shared state on that path, so a subsequent `status()` still reports
`is_recording = true` — not the claimed auto-transition to
`is_recording = false`. -/
theorem claim_C9_counterexample :
    (encoderRun [AudioSample.Data (List.replicate 960 5)] 0).viaCap = true
    ∧ ¬ (get_recording_status false
          (encoderStateAfter
            ⟨true, some "/tmp/rec/voice_1.wav", some 48000, some 1, true⟩
            [AudioSample.Data (List.replicate 960 5)] 0)
        = some ⟨false, some "/tmp/rec/voice_1.wav"⟩) := by
  constructor
  · decide
  · intro h
    simp [encoderStateAfter, get_recording_status] at h

/-- C9, amended.  Reaching the `max_frames` cap is a normal termination
path: the encoder finalizes the file with exactly `max_frames * 960`
samples and exits.  But the encoder thread holds no reference to the shared
session state, so the state is unchanged and `status()` keeps reporting
`is_recording = true` until the caller invokes `stop()`; no auto-transition
to not-recording occurs. -/
theorem claim_C9 (st : RecordingState) (msgs : List AudioSample) (mf : Nat)
    (h : st.is_recording = true) :
    encoderStateAfter st msgs mf = st
    ∧ get_recording_status false (encoderStateAfter st msgs mf)
        = some ⟨true, st.output_path⟩
    ∧ ((encoderRun msgs mf).viaCap = true
        → (encoderRun msgs mf).out.length = mf * 960) := by
  refine ⟨rfl, ?_, ?_⟩
  · simp [encoderStateAfter, get_recording_status, h]
  · exact (encoderLoop_bound mf msgs [] [] 0 (by simp) (by simp) (by simp)).2

/-- C9, witness: the amended statement at a concrete committed state and a
concrete cap-reaching run. -/
theorem claim_C9_witness :
    encoderStateAfter ⟨true, some "p", some 48000, some 1, true⟩
        [AudioSample.Data (List.replicate 960 5)] 0
      = ⟨true, some "p", some 48000, some 1, true⟩
    ∧ get_recording_status false
        (encoderStateAfter ⟨true, some "p", some 48000, some 1, true⟩
          [AudioSample.Data (List.replicate 960 5)] 0)
      = some ⟨true, some "p"⟩
    ∧ ((encoderRun [AudioSample.Data (List.replicate 960 5)] 0).viaCap = true
        → (encoderRun [AudioSample.Data (List.replicate 960 5)] 0).out.length
          = 0 * 960) :=
  claim_C9 ⟨true, some "p", some 48000, some 1, true⟩
    [AudioSample.Data (List.replicate 960 5)] 0 rfl

/-! ### WAV writer lemmas -/

/-- Each 16-bit sample occupies two bytes. -/
theorem i16le_length (s : Int) : (i16le s).length = 2 := rfl

theorem sampleBytes_length (xs : List Int) :
    ((xs.map i16le).flatten).length = 2 * xs.length := by
  induction xs with
  | nil => simp
  | cons a l ih => simp [ih, i16le_length]; omega

/-- Closed form of the writer state after a sequence of frame writes. -/
theorem writeFrames_closed (fs : List (List Int)) :
    ∀ (w : WavWriter), w.dataSize < 2 ^ 32 →
      (writeFrames w fs).bytes
        = w.bytes ++ (fs.map (fun f => (f.map i16le).flatten)).flatten
      ∧ (writeFrames w fs).dataSize
        = (w.dataSize + 2 * (fs.map List.length).sum) % 2 ^ 32 := by
  induction fs with
  | nil =>
    intro w hw
    constructor
    · simp [writeFrames]
    · simp [writeFrames]
      omega
  | cons f fs ih =>
    intro w hw
    have h := ih (w.write_samples f) (by simp [WavWriter.write_samples]; omega)
    constructor
    · show (writeFrames (w.write_samples f) fs).bytes = _
      rw [h.1]
      simp [WavWriter.write_samples, List.append_assoc]
    · show (writeFrames (w.write_samples f) fs).dataSize = _
      rw [h.2]
      show ((w.dataSize + f.length * 2) % 2 ^ 32 + 2 * (fs.map List.length).sum)
          % 2 ^ 32 = _
      rw [Nat.mod_add_mod]
      simp [List.sum_cons]
      ring_nf

/-- Total payload byte count of a run of whole frames. -/
theorem payload_length (fs : List (List Int)) (h : ∀ f ∈ fs, f.length = 960) :
    ((fs.map (fun f => (f.map i16le).flatten)).flatten).length
      = fs.length * 1920 := by
  induction fs with
  | nil => simp
  | cons f fs ih =>
    simp only [List.map_cons, List.flatten_cons, List.length_append,
      sampleBytes_length, List.length_cons]
    rw [ih (fun g hg => h g (List.mem_cons_of_mem f hg)), h f (List.mem_cons_self f fs)]
    ring

theorem frames_size_sum (fs : List (List Int)) (h : ∀ f ∈ fs, f.length = 960) :
    (fs.map List.length).sum = fs.length * 960 := by
  induction fs with
  | nil => simp
  | cons f fs ih =>
    simp only [List.map_cons, List.sum_cons, List.length_cons]
    rw [ih (fun g hg => h g (List.mem_cons_of_mem f hg)), h f (List.mem_cons_self f fs)]
    ring

/-- Before finalize, the RIFF-size field at offset 4 is the zero
placeholder, whatever the payload. -/
theorem readU32_header_4 (P : List Nat) :
    readU32 (wavHeader 48000 1 ++ P) 4 = 0 := rfl

/-- Before finalize, the data-size field at offset 40 is the zero
placeholder, whatever the payload. -/
theorem readU32_header_40 (P : List Nat) :
    readU32 (wavHeader 48000 1 ++ P) 40 = 0 := rfl

/-- Decoding the four bytes of a little-endian 32-bit encoding gives the
value modulo `2 ^ 32`. -/
theorem u32le_decode (v : Nat) :
    v % 256 + 2 ^ 8 * (v / 2 ^ 8 % 256) + 2 ^ 16 * (v / 2 ^ 16 % 256)
      + 2 ^ 24 * (v / 2 ^ 24 % 256) = v % 2 ^ 32 := by
  omega

/-- After finalize, the field at offset 40 is the accumulated data size. -/
theorem readU32_finish_40 (d : Nat) (P : List Nat) :
    readU32 (WavWriter.finish ⟨wavHeader 48000 1 ++ P, d⟩) 40 = d % 2 ^ 32 := by
  have h : readU32 (WavWriter.finish ⟨wavHeader 48000 1 ++ P, d⟩) 40
      = d % 256 + 2 ^ 8 * (d / 2 ^ 8 % 256) + 2 ^ 16 * (d / 2 ^ 16 % 256)
        + 2 ^ 24 * (d / 2 ^ 24 % 256) := rfl
  rw [h, u32le_decode]

/-- After finalize, the field at offset 4 is `data_size + 36` (as a wrapped
`u32`). -/
theorem readU32_finish_4 (d : Nat) (P : List Nat) :
    readU32 (WavWriter.finish ⟨wavHeader 48000 1 ++ P, d⟩) 4
      = (d + 36) % 2 ^ 32 := by
  have h : readU32 (WavWriter.finish ⟨wavHeader 48000 1 ++ P, d⟩) 4
      = (d + 36) % 2 ^ 32 % 256 + 2 ^ 8 * ((d + 36) % 2 ^ 32 / 2 ^ 8 % 256)
        + 2 ^ 16 * ((d + 36) % 2 ^ 32 / 2 ^ 16 % 256)
        + 2 ^ 24 * ((d + 36) % 2 ^ 32 / 2 ^ 24 % 256) := rfl
  rw [h, u32le_decode]
  omega

/-- Finalize patches fields in place: the file size is the 44-byte header
plus the payload. -/
theorem finish_length (d : Nat) (P : List Nat) :
    (WavWriter.finish ⟨wavHeader 48000 1 ++ P, d⟩).length = 44 + P.length := by
  have h : WavWriter.finish ⟨wavHeader 48000 1 ++ P, d⟩
      = [0x52, 0x49, 0x46, 0x46] ++ u32le ((d + 36) % 2 ^ 32)
        ++ [0x57, 0x41, 0x56, 0x45, 0x66, 0x6d, 0x74, 0x20,
            16, 0, 0, 0, 1, 0, 1, 0, 0x80, 0xbb, 0, 0, 0, 0x77, 1, 0,
            2, 0, 16, 0, 0x64, 0x61, 0x74, 0x61] ++ u32le d ++ P := rfl
  rw [h]
  simp [u32le]
  omega

/-- General closed form of the file produced by writing `N` whole frames
and finalizing, with the `u32` size fields wrapped modulo `2 ^ 32`. -/
theorem wavFields (fs : List (List Int)) (hf : ∀ f ∈ fs, f.length = 960) :
    readU32 (writeFrames (WavWriter.new 48000 1) fs).bytes 4 = 0
    ∧ readU32 (writeFrames (WavWriter.new 48000 1) fs).bytes 40 = 0
    ∧ readU32 (writeFrames (WavWriter.new 48000 1) fs).finish 40
        = fs.length * 1920 % 2 ^ 32
    ∧ readU32 (writeFrames (WavWriter.new 48000 1) fs).finish 4
        = (fs.length * 1920 + 36) % 2 ^ 32
    ∧ (writeFrames (WavWriter.new 48000 1) fs).finish.length
        = 44 + fs.length * 1920 := by
  obtain ⟨hb, hd⟩ := writeFrames_closed fs (WavWriter.new 48000 1)
    (by show (0 : Nat) < 4294967296; norm_num)
  have hb' : (writeFrames (WavWriter.new 48000 1) fs).bytes
      = wavHeader 48000 1 ++ (fs.map (fun f => (f.map i16le).flatten)).flatten := hb
  have hd' : (writeFrames (WavWriter.new 48000 1) fs).dataSize
      = fs.length * 1920 % 2 ^ 32 := by
    rw [hd, frames_size_sum fs hf]
    show (0 + 2 * (fs.length * 960)) % 2 ^ 32 = _
    ring_nf
  have hsplit : writeFrames (WavWriter.new 48000 1) fs
      = (⟨wavHeader 48000 1 ++ (fs.map (fun f => (f.map i16le).flatten)).flatten,
          fs.length * 1920 % 2 ^ 32⟩ : WavWriter) := by
    rw [← hb', ← hd']
  refine ⟨?_, ?_, ?_, ?_, ?_⟩
  · rw [hb']
    exact readU32_header_4 _
  · rw [hb']
    exact readU32_header_40 _
  · rw [hsplit, readU32_finish_40]
    omega
  · rw [hsplit, readU32_finish_4]
    omega
  · rw [hsplit, finish_length]
    rw [payload_length fs hf]

/-- C3, counterexample.  The `data_size` accumulator is a `u32`; with
`N = 2236963` frames the payload is `N * 1920 = 2 ^ 32 + 1664` bytes, the
accumulator wraps, and the patched data-size field reads `1664`, not
`N * 960 * 2`.  So the claim is false for every `N` once `N * 1920`
overflows 32 bits. -/
theorem claim_C3_counterexample :
    ¬ (readU32 ((writeFrames (WavWriter.new 48000 1)
          (List.replicate 2236963 (List.replicate 960 0))).finish) 40
        = 2236963 * 960 * 2) := by
  have h := (wavFields (List.replicate 2236963 (List.replicate 960 0))
    (by intro f hf; rw [List.eq_of_mem_replicate hf]; simp)).2.2.1
  simp only [List.length_replicate] at h
  rw [h]
  norm_num

/-- C3, amended.  For every `N` with `N * 1920 < 2 ^ 32` (below the `u32`
wrap of the `data_size` accumulator), writing `N` whole frames and
finalizing yields a data-size field (offset 40) of `N * 960 * 2` bytes, a
RIFF-size field (offset 4) of data-size + 36, and a total file size of
data-size + 44; before finalize both size fields are zero placeholders,
and finalize patches them in place.  In general the fields carry these
values modulo `2 ^ 32`. -/
theorem claim_C3 (fs : List (List Int)) (hf : ∀ f ∈ fs, f.length = 960)
    (hN : fs.length * 1920 < 2 ^ 32) :
    readU32 (writeFrames (WavWriter.new 48000 1) fs).bytes 4 = 0
    ∧ readU32 (writeFrames (WavWriter.new 48000 1) fs).bytes 40 = 0
    ∧ readU32 (writeFrames (WavWriter.new 48000 1) fs).finish 40
        = fs.length * 960 * 2
    ∧ readU32 (writeFrames (WavWriter.new 48000 1) fs).finish 4
        = fs.length * 960 * 2 + 36
    ∧ (writeFrames (WavWriter.new 48000 1) fs).finish.length
        = fs.length * 960 * 2 + 44 := by
  obtain ⟨h4, h40, hf40, hf4, hlen⟩ := wavFields fs hf
  refine ⟨h4, h40, ?_, ?_, ?_⟩
  · rw [hf40]
    omega
  · rw [hf4]
    omega
  · rw [hlen]
    omega

/-- C3, witness: one whole frame of silence. -/
theorem claim_C3_witness :
    readU32 (writeFrames (WavWriter.new 48000 1) [List.replicate 960 0]).bytes 4 = 0
    ∧ readU32 (writeFrames (WavWriter.new 48000 1) [List.replicate 960 0]).bytes 40 = 0
    ∧ readU32 (writeFrames (WavWriter.new 48000 1) [List.replicate 960 0]).finish 40
        = [List.replicate 960 (0 : Int)].length * 960 * 2
    ∧ readU32 (writeFrames (WavWriter.new 48000 1) [List.replicate 960 0]).finish 4
        = [List.replicate 960 (0 : Int)].length * 960 * 2 + 36
    ∧ (writeFrames (WavWriter.new 48000 1) [List.replicate 960 0]).finish.length
        = [List.replicate 960 (0 : Int)].length * 960 * 2 + 44 :=
  claim_C3 [List.replicate 960 0]
    (by intro f hf; simp at hf; rw [hf]; simp) (by norm_num)

/-! ### Session controller lemmas -/

/-- A start attempted while a session is active fails immediately with the
`AlreadyRecording` error and no state change. -/
theorem start_already (env : StartEnv) (dir : String) (st : RecordingState)
    (h : st.is_recording = true) :
    start_recording env dir st = (st, Except.error "Already recording") := by
  simp [start_recording, h]

/-- A successful start leaves the committed flag set. -/
theorem start_ok_recording (env : StartEnv) (dir : String) (st : RecordingState)
    (h : ((start_recording env dir st).2).isOk = true) :
    (start_recording env dir st).1.is_recording = true := by
  rcases env with ⟨d, c, f, dk, b, p, t⟩
  cases d <;> cases c <;> cases f <;> cases dk <;> cases b <;> cases p <;>
    cases hrec : st.is_recording <;>
    simp_all [start_recording, start_audio_capture, Except.isOk, Except.toBool]

/-- C6.  `start()` commits session state only on full success: if the call
returns `Ok`, the state holds the new session (recording flag, path of the
result, canonical 48 kHz mono format, and the control sender) committed
together; if it returns any error — already recording, missing device,
config failure, directory failure, unsupported format, stream build or
play failure — the state is exactly what it was before. -/
theorem claim_C6 (env : StartEnv) (dir : String) (st : RecordingState)
    (h : st.is_recording = false) :
    (∀ v, (start_recording env dir st).2 = Except.ok v →
      (start_recording env dir st).1
        = ⟨true, some v.output_path, some 48000, some 1, true⟩)
    ∧ (∀ e, (start_recording env dir st).2 = Except.error e →
      (start_recording env dir st).1 = st) := by
  unfold start_recording start_audio_capture
  rcases env with ⟨d, c, f, dk, b, p, t⟩
  cases d <;> cases c <;> cases f <;> cases dk <;> cases b <;> cases p <;>
    simp_all [TELEGRAM_SAMPLE_RATE]

/-- C6, witness: a fully successful environment commits the session, and a
failing environment (no input device) leaves the fresh state untouched. -/
theorem claim_C6_witness :
    (∀ v, (start_recording ⟨true, true, SampleFormat.F32, true, true, true, 7⟩
        "/tmp/rec" RecordingState.new).2 = Except.ok v →
      (start_recording ⟨true, true, SampleFormat.F32, true, true, true, 7⟩
        "/tmp/rec" RecordingState.new).1
        = ⟨true, some v.output_path, some 48000, some 1, true⟩)
    ∧ (∀ e, (start_recording ⟨true, true, SampleFormat.F32, true, true, true, 7⟩
        "/tmp/rec" RecordingState.new).2 = Except.error e →
      (start_recording ⟨true, true, SampleFormat.F32, true, true, true, 7⟩
        "/tmp/rec" RecordingState.new).1 = RecordingState.new) :=
  claim_C6 ⟨true, true, SampleFormat.F32, true, true, true, 7⟩ "/tmp/rec"
    RecordingState.new rfl

/-- C7, counterexample.  `get_recording_status` calls
`state.lock().unwrap()`: on a poisoned lock the `unwrap` panics (modelled
as `none`), so the operation does not degrade to a stale read — the claim
that it never fails is false. -/
theorem claim_C7_counterexample :
    ¬ (∀ (poisoned : Bool) (st : RecordingState),
        (get_recording_status poisoned st).isSome = true) := by
  intro h
  have := h true RecordingState.new
  simp [get_recording_status] at this

/-- C7, amended.  `status()` is a read-only snapshot of the session state
(the function takes no mutable access and returns exactly the two stored
fields) and it returns normally whenever the lock is healthy; but a
poisoned lock makes its `unwrap()` panic rather than degrade to a stale
read. -/
theorem claim_C7 (st : RecordingState) :
    get_recording_status false st = some ⟨st.is_recording, st.output_path⟩
    ∧ get_recording_status true st = none := by
  constructor <;> rfl

/-- C8.  Precondition violations fail with their designated error and leave
the state unchanged: `start()` while recording yields exactly
`AlreadyRecording` with no side effects, `stop()` while not recording
yields exactly `NotRecording` with no side effects, and two `start()`
calls in immediate succession yield at most one success — if the first
succeeded, the second fails with `AlreadyRecording`. -/
theorem claim_C8 (env1 env2 : StartEnv) (dir1 dir2 : String)
    (st stR stN : RecordingState) (fe : Bool) (fz : Nat)
    (hR : stR.is_recording = true) (hN : stN.is_recording = false) :
    start_recording env1 dir1 stR = (stR, Except.error "Already recording")
    ∧ stop_recording fe fz stN = (stN, Except.error "Not recording")
    ∧ (((start_recording env1 dir1 st).2).isOk = true →
        (start_recording env2 dir2 (start_recording env1 dir1 st).1).2
          = Except.error "Already recording") := by
  refine ⟨start_already env1 dir1 stR hR, ?_, ?_⟩
  · simp [stop_recording, hN]
  · intro h
    have h2 := start_ok_recording env1 dir1 st h
    rw [start_already env2 dir2 _ h2]

/-- C8, witness: concrete states on both sides of the precondition, and a
concrete successful first start followed by a failing second start. -/
theorem claim_C8_witness :
    start_recording ⟨true, true, SampleFormat.I16, true, true, true, 7⟩ "/d"
        ⟨true, some "p", some 48000, some 1, true⟩
      = (⟨true, some "p", some 48000, some 1, true⟩,
          Except.error "Already recording")
    ∧ stop_recording true 200 RecordingState.new
      = (RecordingState.new, Except.error "Not recording")
    ∧ (((start_recording ⟨true, true, SampleFormat.I16, true, true, true, 7⟩
          "/d" RecordingState.new).2).isOk = true →
        (start_recording ⟨false, true, SampleFormat.I16, true, true, true, 9⟩
          "/e" (start_recording ⟨true, true, SampleFormat.I16, true, true, true, 7⟩
            "/d" RecordingState.new).1).2
          = Except.error "Already recording") :=
  claim_C8 ⟨true, true, SampleFormat.I16, true, true, true, 7⟩
    ⟨false, true, SampleFormat.I16, true, true, true, 9⟩ "/d" "/e"
    RecordingState.new ⟨true, some "p", some 48000, some 1, true⟩
    RecordingState.new true 200 rfl rfl

/-- C10.  A successful `stop()` clears `is_recording` and the control
sender but leaves `output_path` (and the stored format) unchanged, so a
`status()` taken after the stop reports not-recording together with the
path of the recording that just finished. -/
theorem claim_C10 (st : RecordingState) (p : String) (fz : Nat)
    (h1 : st.is_recording = true) (h2 : st.output_path = some p)
    (h3 : 100 ≤ fz) :
    stop_recording true fz st
      = ({ st with is_recording := false, sample_tx := false }, Except.ok p)
    ∧ get_recording_status false
        { st with is_recording := false, sample_tx := false }
      = some ⟨false, some p⟩ := by
  constructor
  · simp [stop_recording, h1, h2]
    omega
  · simp [get_recording_status, h2]

/-- C10, witness: a concrete active session stopped successfully. -/
theorem claim_C10_witness :
    stop_recording true 4444 ⟨true, some "p", some 48000, some 1, true⟩
      = (⟨false, some "p", some 48000, some 1, false⟩, Except.ok "p")
    ∧ get_recording_status false ⟨false, some "p", some 48000, some 1, false⟩
      = some ⟨false, some "p"⟩ :=
  claim_C10 ⟨true, some "p", some 48000, some 1, true⟩ "p" 4444 rfl rfl
    (by norm_num)

/-! ### Resampler lemmas -/

/-- The truncating `as i16` cast is the identity on 16-bit values. -/
theorem wrapI16_eq_self (x : Int) (h1 : -32768 ≤ x) (h2 : x < 32768) :
    wrapI16 x = x := by
  unfold wrapI16
  omega

/-- With fewer than two buffered input samples the loop exits at once. -/
theorem resampleLoopF_one (R fuel : Nat) (x : Int) (o : List Int) (s : Nat)
    (h : 1 ≤ fuel) : resampleLoopF R fuel [x] o s = ([x], o, s) := by
  cases fuel with
  | zero => omega
  | succ f =>
    rw [resampleLoopF]
    simp

/-- One unfolding of the loop while its condition holds. -/
theorem resampleLoopF_step (R fuel : Nat) (i o : List Int) (s : Nat)
    (h1 : 2 ≤ i.length) (h2 : o.length < 1920) :
    resampleLoopF R (fuel + 1) i o s
      = resampleLoopF R fuel (rsIter R i o s).1 (rsIter R i o s).2.1
          (rsIter R i o s).2.2 := by
  rw [resampleLoopF]
  rw [if_pos]
  exact ⟨h1, h2⟩

/-- A drop iteration on a two-sample buffer: when the advanced index
crosses 1, the loop emits the newer sample (both interpolation endpoints
coincide, so the fixed-point weights cancel) and consumes the older one. -/
theorem rsIter_two_drop (R : Nat) (a x : Int) (out : List Int) (src : Nat)
    (h1 : 48000 ≤ src + R) (h2 : src + R < 96000) :
    rsIter R [a, x] out src = ([x], out ++ [wrapI16 x], src + R - 48000) := by
  simp only [rsIter, TELEGRAM_SAMPLE_RATE]
  have hidx : (src + R) / 48000 = 1 := by omega
  rw [hidx]
  generalize (((src + R) % 48000 * 1024 / 48000 : Nat) : Int) = c
  simp
  have hval : x * (1024 - c) + x * c = x * 1024 := by ring
  rw [hval, Int.mul_tdiv_cancel x (by norm_num)]

/-- A non-drop iteration on a two-sample buffer: when the advanced index
stays below 1, the loop emits one interpolated sample and keeps both
inputs. -/
theorem rsIter_two_stay (R : Nat) (a x : Int) (out : List Int) (src : Nat)
    (h : src + R < 48000) :
    ∃ v, rsIter R [a, x] out src = ([a, x], out ++ [v], src + R) := by
  simp only [rsIter, TELEGRAM_SAMPLE_RATE]
  have hidx : (src + R) / 48000 = 0 := by omega
  rw [hidx]
  simp

/-- Forwarding frames only moves samples: the concatenation of the sent
stream and the output buffer is preserved. -/
theorem forwardF_concat :
    ∀ (fuel : Nat) (sent out : List Int),
      (forwardF fuel sent out).1 ++ (forwardF fuel sent out).2 = sent ++ out := by
  intro fuel
  induction fuel with
  | zero => intro sent out; rfl
  | succ f ih =>
    intro sent out
    rw [forwardF]
    split
    · rw [ih]
      simp [frame_size_eq]
    · rfl

/-- After forwarding, the residual output buffer holds less than one
frame (given sufficient fuel). -/
theorem forwardF_small :
    ∀ (fuel : Nat) (sent out : List Int), out.length ≤ fuel + 959 →
      (forwardF fuel sent out).2.length ≤ 959 := by
  intro fuel
  induction fuel with
  | zero =>
    intro sent out h
    simpa [forwardF] using h
  | succ f ih =>
    intro sent out h
    rw [forwardF]
    split
    · apply ih
      simp [frame_size_eq]
      omega
    · rename_i hlen
      rw [frame_size_eq] at hlen
      simp
      omega

theorem forwardFrames_concat (sent out : List Int) :
    (forwardFrames sent out).1 ++ (forwardFrames sent out).2 = sent ++ out :=
  forwardF_concat out.length sent out

theorem forwardFrames_small (sent out : List Int) :
    (forwardFrames sent out).2.length ≤ 959 :=
  forwardF_small out.length sent out (by omega)

/-- Core single-message lemma: starting from a two-sample buffer `[a, x]`
and a source index `src < 48000`, the loop performs some `k ≥ 1`
iterations — emitting one sample each — until the index first crosses one
whole input sample, then drops the older input and exits with the buffer
`[x]`.  `k` is characterized by `48000 ≤ src + k * R` and
`src + (k - 1) * R < 48000`. -/
theorem rs_msg (R : Nat) (hR : R ≤ 48000) :
    ∀ (n src : Nat) (out : List Int) (a x : Int) (fuel : Nat),
      src < 48000 → 48000 ≤ src + n * R → out.length + n ≤ 1920 →
      n + 1 ≤ fuel →
      ∃ (k : Nat) (ys : List Int), 1 ≤ k ∧ k ≤ n ∧ ys.length = k ∧
        resampleLoopF R fuel [a, x] out src
          = ([x], out ++ ys, src + k * R - 48000) ∧
        48000 ≤ src + k * R ∧ src + (k - 1) * R < 48000 := by
  intro n
  induction n with
  | zero =>
    intro src out a x fuel hsrc hcross hout hfuel
    omega
  | succ n ih =>
    intro src out a x fuel hsrc hcross hout hfuel
    cases fuel with
    | zero => omega
    | succ f =>
      rw [resampleLoopF_step R f [a, x] out src (by simp) (by omega)]
      by_cases hge : 48000 ≤ src + R
      · rw [rsIter_two_drop R a x out src hge (by omega)]
        rw [resampleLoopF_one R f x _ _ (by omega)]
        refine ⟨1, [wrapI16 x], le_rfl, by omega, rfl, by simp, by omega, by
          simp; omega⟩
      · obtain ⟨v, hv⟩ := rsIter_two_stay R a x out src (by omega)
        rw [hv]
        have hsm : (n + 1) * R = n * R + R := by ring
        have hcross' : 48000 ≤ src + R + n * R := by omega
        obtain ⟨k, ys, hk1, hkn, hys, hrun, hge', hlt'⟩ :=
          ih (src + R) (out ++ [v]) a x f (by omega) hcross'
            (by simp; omega) (by omega)
        have hkm : (k + 1) * R = k * R + R := by ring
        refine ⟨k + 1, v :: ys, by omega, by omega, by simp [hys], ?_, ?_, ?_⟩
        · rw [hrun]
          simp only [Prod.mk.injEq, List.append_assoc, List.singleton_append]
          exact ⟨trivial, trivial, by omega⟩
        · omega
        · have hk1m : (k + 1 - 1) * R = k * R := by
            have : k + 1 - 1 = k := by omega
            rw [this]
          have hkd : (k - 1) * R = k * R - R := Nat.sub_one_mul k R
          have hRk : R ≤ k * R := Nat.le_mul_of_pos_left R (by omega)
          omega

/-- The worker's loop fuel for a two-sample buffer. -/
theorem resampleLoop_two (R : Nat) (a y : Int) (out : List Int) (src : Nat) :
    resampleLoop R ([a] ++ [y]) out src = resampleLoopF R 1922 [a, y] out src :=
  rfl

/-- One single-sample message processed by the worker from a steady state:
`k ≥ 1` output samples are emitted and the index advances by `k * R`
modulo one consumed input sample. -/
theorem rsStep_two (R : Nat) (hR50 : 50 ≤ R) (hR : R ≤ 48000)
    (a y : Int) (out sent : List Int) (src : Nat)
    (hsrc : src < R) (hout : out.length ≤ 959) :
    ∃ (k : Nat) (ys sent1 out1 : List Int), 1 ≤ k ∧ ys.length = k ∧
      rsStep R ⟨[a], out, src, sent⟩ [y]
        = ⟨[y], out1, src + k * R - 48000, sent1⟩ ∧
      sent1 ++ out1 = sent ++ out ++ ys ∧ out1.length ≤ 959 ∧
      48000 ≤ src + k * R ∧ src + (k - 1) * R < 48000 := by
  obtain ⟨k, ys, hk1, hkn, hys, hrun, hge, hlt⟩ :=
    rs_msg R hR 960 src out a y 1922 (by omega)
      (by have : 48000 ≤ 960 * R := by omega
          omega)
      (by omega) (by norm_num)
  refine ⟨k, ys, (forwardFrames sent (out ++ ys)).1,
    (forwardFrames sent (out ++ ys)).2, hk1, hys, ?_, ?_, ?_, hge, hlt⟩
  · simp only [rsStep]
    rw [resampleLoop_two, hrun]
  · rw [forwardFrames_concat]
    simp [List.append_assoc]
  · exact forwardFrames_small sent (out ++ ys)

/-- Feeding invariant: over any run of single-sample messages from a
steady state (singleton input buffer, in-range index, sub-frame output
residue), the total number of emitted samples `J` satisfies
`src + 48000 * (n - 1) = J * R` for `n` consumed input samples. -/
theorem rsFeed (R : Nat) (hR50 : 50 ≤ R) (hR : R ≤ 48000) :
    ∀ (ys : List Int) (a : Int) (out sent : List Int) (src n : Nat),
      src < R → out.length ≤ 959 → 1 ≤ n →
      src + 48000 * (n - 1) = (sent.length + out.length) * R →
      ∃ (a2 : Int) (out2 sent2 : List Int) (src2 : Nat),
        List.foldl (rsStep R) ⟨[a], out, src, sent⟩ (ys.map fun v => [v])
          = ⟨[a2], out2, src2, sent2⟩ ∧
        src2 < R ∧ out2.length ≤ 959 ∧
        src2 + 48000 * (n + ys.length - 1)
          = (sent2.length + out2.length) * R := by
  intro ys
  induction ys with
  | nil =>
    intro a out sent src n h1 h2 h3 h4
    exact ⟨a, out, sent, src, rfl, h1, h2, by simpa using h4⟩
  | cons y ys ih =>
    intro a out sent src n h1 h2 h3 h4
    obtain ⟨k, zs, sent1, out1, hk1, hzs, hstep, hconcat, hout1, hge, hlt⟩ :=
      rsStep_two R hR50 hR a y out sent src h1 h2
    simp only [List.map_cons, List.foldl_cons]
    rw [hstep]
    have hkd : (k - 1) * R = k * R - R := Nat.sub_one_mul k R
    have hRk : R ≤ k * R := Nat.le_mul_of_pos_left R (by omega)
    have hlen : sent1.length + out1.length = sent.length + out.length + k := by
      have := congrArg List.length hconcat
      simp only [List.length_append] at this
      omega
    have hmul : (sent.length + out.length + k) * R
        = (sent.length + out.length) * R + k * R := by ring
    obtain ⟨a2, out2, sent2, src2, hfold, i1, i2, i3⟩ :=
      ih y out1 sent1 (src + k * R - 48000) (n + 1) (by omega) hout1
        (by omega) (by rw [hlen, hmul]; omega)
    refine ⟨a2, out2, sent2, src2, hfold, i1, i2, ?_⟩
    simp only [List.length_cons]
    omega

/-- Count of the model's emitted samples for a nonempty stream fed one
sample per message, for any rate `50 ≤ R ≤ 48000`.  This is a fact about
the model alone; it is asserted of the program (in `claim_C4`) only for the
dyadic rates on which the model is bit-faithful to the `f64` loop. -/
theorem rsCount_singleFeed (R : Nat) (xs : List Int) (h50 : 50 ≤ R)
    (h48 : R ≤ 48000) (hne : xs ≠ []) :
    (rsRun R (xs.map fun v => [v])).emitted.length
      = ((xs.length - 1) * 48000 + (R - 1)) / R := by
  obtain ⟨x, rest, rfl⟩ := List.exists_cons_of_ne_nil hne
  unfold rsRun
  simp only [List.map_cons, List.foldl_cons]
  have hfirst : rsStep R ⟨[], [], 0, []⟩ [x] = ⟨[x], [], 0, []⟩ := rfl
  rw [hfirst]
  obtain ⟨a2, out2, sent2, src2, hfold, i1, i2, i3⟩ :=
    rsFeed R h50 h48 rest x [] [] 0 1 (by omega) (by simp) le_rfl (by simp)
  rw [hfold]
  show (sent2 ++ out2).length = _
  rw [List.length_append]
  have hxs : (x :: rest).length - 1 = rest.length := by simp
  rw [hxs]
  have hsm : (sent2.length + out2.length + 1) * R
      = (sent2.length + out2.length) * R + R := by ring
  refine (Nat.div_eq_of_lt_le ?_ ?_).symm
  · omega
  · rw [hsm]
    omega

/-- C4, counterexample.  At device rate `R = 750` the resample ratio is
`64.0` and the step is `1 / 64` — both exact binary64 values — and every
source-index value the loop reaches is a multiple of `1 / 64` below 2, so
the floating-point program follows this integer model bit for bit.
Feeding 8 native samples (a fixed input duration of `8 / 750` seconds) one
message at a time emits 448 output samples, while the claim demands a
count within ±1 of `48000 * duration = 512`.  The loop advances past the
first sample without emitting it and retains the last sample in its
look-ahead buffer, so the count tracks `⌈(n - 1) * 48000 / R⌉ = 448`,
about `48000 / R = 64` samples short. -/
theorem claim_C4_counterexample :
    (rsRun 750 ((List.range 8).map (fun i => [(i : Int)]))).emitted.length = 448
    ∧ ¬ (512 - 1 ≤ (rsRun 750
          ((List.range 8).map (fun i => [(i : Int)]))).emitted.length
        ∧ (rsRun 750
          ((List.range 8).map (fun i => [(i : Int)]))).emitted.length
          ≤ 512 + 1) := by
  decide

/-- C4, amended.  For every device rate `R` whose resampling step
`R / 48000` is a dyadic rational — `R * 2 ^ k = 48000` for some `k`, i.e.
`R ∈ {48000, 24000, 12000, 6000, 3000, 1500, 750, 375}`, exactly the rates
at which the `f64` source-index arithmetic is exact and the loop is
bit-identical to this model — feeding `n` native samples one message at a
time emits exactly `⌈(n - 1) * 48000 / R⌉` output samples: about
`48000 / R` samples short of the claimed `48000 * duration ± 1`.  (At
non-dyadic rates accumulated `f64` rounding can shift individual boundary
crossings by one further iteration, leaving the count still far outside
±1.) -/
theorem claim_C4 (R k : Nat) (xs : List Int) (hdy : R * 2 ^ k = 48000)
    (hne : xs ≠ []) :
    (rsRun R (xs.map fun v => [v])).emitted.length
      = ((xs.length - 1) * 48000 + (R - 1)) / R := by
  have hdvd : 2 ^ k ∣ 48000 := ⟨R, by rw [← hdy]; ring⟩
  have h2k : 2 ^ k ≤ 48000 := Nat.le_of_dvd (by norm_num) hdvd
  have hk15 : k ≤ 15 := by
    by_contra hk
    have h16 : (2 : Nat) ^ 16 ≤ 2 ^ k := Nat.pow_le_pow_right (by norm_num) (by omega)
    have : (65536 : Nat) ≤ 2 ^ k := by simpa using h16
    omega
  have hR : 50 ≤ R ∧ R ≤ 48000 := by
    interval_cases k <;> (norm_num at hdy; omega)
  exact rsCount_singleFeed R xs hR.1 hR.2 hne

/-- C4, witness: the amended count at the dyadic rate `R = 750`
(`750 * 2 ^ 6 = 48000`) with 8 input samples is `⌈7 * 48000 / 750⌉ = 448`. -/
theorem claim_C4_witness :
    (rsRun 750 (([0, 1, 2, 3, 4, 5, 6, 7] : List Int).map fun v => [v])).emitted.length
      = ((([0, 1, 2, 3, 4, 5, 6, 7] : List Int).length - 1) * 48000 + (750 - 1)) / 750 :=
  claim_C4 750 6 [0, 1, 2, 3, 4, 5, 6, 7] (by norm_num) (by simp)

/-- At device rate 48000 every message triggers exactly one loop iteration,
which emits the newer of the two buffered samples and drops the older. -/
theorem rs48_msg (fuel : Nat) (a x : Int) (out : List Int)
    (hf : 2 ≤ fuel) (hout : out.length < 1920) :
    resampleLoopF 48000 fuel [a, x] out 0 = ([x], out ++ [wrapI16 x], 0) := by
  cases fuel with
  | zero => omega
  | succ f =>
    rw [resampleLoopF_step 48000 f [a, x] out 0 (by simp) hout]
    rw [rsIter_two_drop 48000 a x out 0 (by omega) (by omega)]
    rw [resampleLoopF_one 48000 f x _ _ (by omega)]

/-- Feeding single-sample messages at device rate 48000 from a steady state
appends exactly the fed samples (in order) to the emitted stream. -/
theorem rs48_feed :
    ∀ (ys : List Int) (a : Int) (out sent : List Int),
      (∀ v ∈ ys, -32768 ≤ v ∧ v < 32768) → out.length ≤ 959 →
      (List.foldl (rsStep 48000) ⟨[a], out, 0, sent⟩
          (ys.map fun v => [v])).emitted
        = sent ++ out ++ ys := by
  intro ys
  induction ys with
  | nil =>
    intro a out sent hv hout
    show sent ++ out = sent ++ out ++ []
    simp
  | cons y ys ih =>
    intro a out sent hv hout
    simp only [List.map_cons, List.foldl_cons]
    have hy := hv y (List.mem_cons_self y ys)
    have hstep : rsStep 48000 ⟨[a], out, 0, sent⟩ [y]
        = ⟨[y], (forwardFrames sent (out ++ [y])).2, 0,
            (forwardFrames sent (out ++ [y])).1⟩ := by
      simp only [rsStep]
      rw [resampleLoop_two, rs48_msg 1922 a y out (by norm_num) (by omega)]
      rw [wrapI16_eq_self y hy.1 hy.2]
    rw [hstep]
    rw [ih y _ _ (fun v hmem => hv v (List.mem_cons_of_mem y hmem))
      (forwardFrames_small sent (out ++ [y]))]
    have hcat := forwardFrames_concat sent (out ++ [y])
    rw [hcat]
    simp

/-- C2, counterexample.  At resample ratio 1 (device rate 48000) the
worker, fed the block `[10, 20, 30]`, emits `[20, 30]` — not the input
sequence: the source index is advanced before the first read, so the first
sample is never emitted.  The identity claim is false. -/
theorem claim_C2_counterexample :
    (rsRun 48000 [[10, 20, 30]]).emitted ≠ [10, 20, 30]
    ∧ (rsRun 48000 [[10, 20, 30]]).emitted = [20, 30] := by
  constructor
  · decide
  · decide

/-- C2, amended.  At resample ratio 1 (device rate equal to the 48000 Hz
target) the resampling stage reproduces the format-converted input
sequence shifted by one: it emits every sample except the first, in order
and unmodified (the interpolation weights cancel exactly), the first input
sample being consumed purely as the initial interpolation neighbour. -/
theorem claim_C2 (xs : List Int) (h : ∀ v ∈ xs, -32768 ≤ v ∧ v < 32768) :
    (rsRun 48000 (xs.map fun v => [v])).emitted = xs.drop 1 := by
  cases xs with
  | nil => rfl
  | cons x rest =>
    unfold rsRun
    simp only [List.map_cons, List.foldl_cons]
    have hfirst : rsStep 48000 ⟨[], [], 0, []⟩ [x] = ⟨[x], [], 0, []⟩ := rfl
    rw [hfirst]
    rw [rs48_feed rest x [] []
      (fun v hmem => h v (List.mem_cons_of_mem x hmem)) (by simp)]
    simp

/-- C2, witness: the amended statement on a concrete 16-bit sample
stream. -/
theorem claim_C2_witness :
    (rsRun 48000 (([10, 20, 30] : List Int).map fun v => [v])).emitted
      = ([10, 20, 30] : List Int).drop 1 :=
  claim_C2 [10, 20, 30] (by decide)

/-! ### Capture mixdown lemmas -/

/-- Every chunk of a channel-aligned block has exactly `channels`
elements. -/
theorem listChunksF_len (ch : Nat) (hch : 0 < ch) :
    ∀ (fuel : Nat) (xs : List RawSample), xs.length ≤ fuel →
      ch ∣ xs.length → ∀ g ∈ listChunksF fuel ch xs, g.length = ch := by
  intro fuel
  induction fuel with
  | zero =>
    intro xs hlen hdvd g hg
    have : xs = [] := List.eq_nil_of_length_eq_zero (by omega)
    subst this
    simp [listChunksF] at hg
  | succ f ih =>
    intro xs hlen hdvd g hg
    cases xs with
    | nil => simp [listChunksF] at hg
    | cons x l =>
      rw [listChunksF, List.mem_cons] at hg
      case x_3 => simp
      simp only [List.length_cons] at hlen hdvd
      have hle : ch ≤ l.length + 1 := Nat.le_of_dvd (by omega) hdvd
      rcases hg with hg | hg
      · rw [hg]
        simp only [List.length_take, List.length_cons]
        omega
      · apply ih ((x :: l).drop ch) _ _ g hg
        · simp only [List.length_drop, List.length_cons]
          omega
        · simp only [List.length_drop, List.length_cons]
          exact Nat.dvd_sub' hdvd dvd_rfl

/-- C5.  On every channel-aligned input block, each mono output sample of
the capture callback equals the arithmetic mean of its group's per-channel
values after conversion to signed 16-bit (floats clamped to `[-1, 1]` and
scaled by 32767), with the quotient truncated toward zero — the division
by the configured channel count coincides with division by the group size
because alignment makes every group full. -/
theorem claim_C5 (ch : Nat) (data : List RawSample)
    (h1 : 0 < ch) (h2 : ch ∣ data.length) :
    captureCallback ch data = (listChunks ch data).map specGroupMean := by
  unfold captureCallback
  apply List.map_congr_left
  intro g hg
  have hlen : g.length = ch := by
    apply listChunksF_len ch h1 data.length data le_rfl h2 g
    simpa [listChunks] using hg
  unfold monoSample specGroupMean
  rw [hlen]

/-- C5, witness: a concrete aligned stereo block with integer samples. -/
theorem claim_C5_witness :
    captureCallback 2 [RawSample.i16 3, RawSample.i16 4,
        RawSample.i16 (-5), RawSample.i16 (-6)]
      = (listChunks 2 [RawSample.i16 3, RawSample.i16 4,
          RawSample.i16 (-5), RawSample.i16 (-6)]).map specGroupMean :=
  claim_C5 2 [RawSample.i16 3, RawSample.i16 4,
    RawSample.i16 (-5), RawSample.i16 (-6)] (by norm_num) (by decide)

end DpcAudio
